import Mathlib

/-!
# Verification of the gorm Association engine (`src/association.go`)

Shallow embedding of the Association Mode of the ORM's relationship engine.
The embedding follows `association.go` line by line; the external collaborators
(the query/execution layer, the schema field-access capability and the
cascading save) are not part of `src/` and are modelled from the spec's
interface contract (§4.1, §4.4, §6), as indicated by doc comments starting
with `Modelled from the spec:`.

The canonical relationship schema used throughout (the spec's Reference
Mapping instantiated with single-column keys):
* HasOne / HasMany: one reference with `OwnPrimaryKey = true`; the related
  table carries a foreign-key column `fk` holding the owner's primary key.
* BelongsTo: one reference with `OwnPrimaryKey = false`; the owner carries a
  foreign-key column `ownerFk` holding the related row's primary key.
* Many2Many: a join table with rows `(ownerKey, relKey)`; one owner-side
  reference (`OwnPrimaryKey = true`) and one related-side reference; no
  `PrimaryValue` (polymorphic discriminator) references.
-/

namespace GormAssoc

/-- Relationship kinds (`schema.RelationshipType` in the source). -/
inductive RelType
  | hasOne
  | hasMany
  | belongsTo
  | many2many
deriving DecidableEq, Repr

/-- A related-entity value: primary key `id` and (for the HasOne/HasMany
canonical schema) the foreign-key column `fk` pointing at an owner primary
key.  `none` models a NULL / zero foreign key. -/
structure Related where
  id : Nat
  fk : Option Nat
deriving DecidableEq, Repr

/-- A join-table row for Many2Many: owner-side key and related-side key. -/
structure JoinRow where
  ownerKey : Nat
  relKey : Nat
deriving DecidableEq, Repr

/-- An owner entity value.  `id` is the prioritized primary key (0 models the
zero value, i.e. a not-yet-inserted owner).  `ownerFk` is the BelongsTo
foreign-key column.  The relationship field is `relSingle` for singular
kinds (HasOne/BelongsTo) and `relMany` for collection kinds
(HasMany/Many2Many); the relationship's kind selects which one is live. -/
structure Owner where
  id : Nat
  ownerFk : Option Nat
  relSingle : Option Related
  relMany : List Related
deriving DecidableEq, Repr

/-- The statement's reflect value: a single owner struct or a slice of
owners (`reflectValue.Kind()` dispatch in the source). -/
inductive OwnerSet
  | single (o : Owner)
  | coll (os : List Owner)
deriving DecidableEq, Repr

/-- The owners as a list (the uniform iteration contract of the spec). -/
def OwnerSet.list : OwnerSet → List Owner
  | .single o => [o]
  | .coll os => os

/-- The persisted database state: the related table and the join table.
The owner table's non-foreign-key columns are outside the engine's scope. -/
structure DBState where
  relatedRows : List Related
  joinRows : List JoinRow
deriving DecidableEq, Repr

/-- A canonical string key produced by `utils.ToStringKey` over the
extracted key fields.  `.n v` is the key of an actual field value
(`none` = zero/NULL, which is a valid key per the spec §4.2).  `.stray` is
the result of reading a field identifier of the related schema on a value
of the owner type (src line 218 reads `relFields` off the owner value
`data`); the owner's struct layout differs from the related type's, so such
a read never yields a related-side key value. -/
inductive KeyV
  | n (v : Option Nat)
  | stray (ownerId : Nat)
deriving DecidableEq, Repr

/-- The handle's error kinds (`association.Error` values). -/
inductive AErr
  | lengthMismatch
  | unsupportedType (t : String)
  | setFailed (t : String)
  | execErr (e : Nat)
deriving DecidableEq, Repr

/-- One reflected element value as seen by `appendToFieldValues`:
`.rel` is a value assignable to the relationship's element type, `.ptr` is
a container whose `Elem()` is assignable (unwrapped by the second branch),
`.bad` fails both assignability checks. -/
inductive ElemVal
  | rel (r : Related)
  | ptr (r : Related)
  | bad (t : String)
deriving DecidableEq, Repr

/-- One argument value after `reflect.Indirect(reflect.ValueOf(value))`:
either a single struct or a slice/array of element values. -/
inductive RawVal
  | structV (v : ElemVal)
  | slice (vs : List ElemVal)
deriving DecidableEq, Repr

/-- The persistence calls the engine issues through the external
query/execution layer (§6 verbs), with enough payload to replay them. -/
inductive PersistCall
  | save (k : RelType) (os : List Owner)
  | saveSelect (cols : List String) (k : RelType) (os : List Owner)
  | findQ (k : RelType) (os : List Owner)
  | countQ (k : RelType) (os : List Owner)
  | updateColumnsNull (cols : List String) (ownerIds : List Nat)
  | deleteJoinRows (conds : List (Nat × List Nat))
  | updateNullFKScoped (keys : List KeyV) (ownerIds : List Nat)
  | updateOwnerFK (keys : List KeyV)
  | deleteJoinScoped (relKeys : List KeyV) (ownerIds : List Nat)
deriving DecidableEq, Repr

/-- The external execution layer's failure behaviour: which calls fail and
with what error code.  `none` means the call succeeds. -/
structure Exec where
  err : PersistCall → Option Nat

/-- The always-succeeding execution layer. -/
def okExec : Exec := ⟨fun _ => none⟩

/-- An execution layer on which every call fails with error `e`. -/
def failAll (e : Nat) : Exec := ⟨fun _ => some e⟩

/-- An execution layer on which only the stale-row `UpdateColumns` of
`Replace` (HasOne/HasMany phase) fails. -/
def failUpdateNull (e : Nat) : Exec :=
  ⟨fun c => match c with
    | .updateColumnsNull _ _ => some e
    | _ => none⟩

/-- The Association handle state: the bound owner value(s), the persisted
database, the sticky `association.Error`, and the trace of persistence
calls issued so far. -/
structure Association where
  owners : OwnerSet
  db : DBState
  err : Option AErr
  trace : List PersistCall
deriving DecidableEq, Repr

/-- Identity values of the owners' prioritized primary key
(`schema.GetIdentityFieldValuesMap` over the owner-side primary fields). -/
def ownerIds (ow : OwnerSet) : List Nat := ow.list.map (·.id)

/-- The `foreignKeys` list (equally the key set of `updateMap`) accumulated
by the reference loop of Replace's HasOne/HasMany stale phase (src 92-99).
The appends happen only in the else branch, i.e. for references with
`OwnPrimaryKey = false`; the canonical HasOne/HasMany reference owns the
primary key, so the loop leaves both EMPTY and the `UpdateColumns` at
src 103 is issued with an empty SET map. -/
def replaceStaleColumns : List String := []

/-- Does the related row's foreign key hit one of the owner key values
(the `clause.IN{Column: fk, Values: ownerKeys}` membership test)? -/
def fkHit (ids : List Nat) (r : Related) : Bool :=
  match r.fk with
  | some v => ids.contains v
  | none => false

/-- Set the foreign-key column to NULL on rows hit by the owner-key
membership condition (the `UpdateColumns(updateMap)` of src line 103). -/
def nullFkIfIn (ids : List Nat) (r : Related) : Related :=
  if fkHit ids r then { r with fk := none } else r

/-- One per-owner Many2Many replace condition (`generateConds`, src 125-137):
`(ownerId, keepIds)` matches a join row whose owner key equals `ownerId`
and whose related key is NOT among `keepIds`. -/
def joinMatchB (c : Nat × List Nat) (j : JoinRow) : Bool :=
  j.ownerKey == c.1 && !(c.2.contains j.relKey)

/-- Upsert one related row by primary key.  Modelled from the spec: the
cascading save (§4.4 persistence step) creates or updates the related row. -/
def upsertRelated (row : Related) : List Related → List Related
  | [] => [row]
  | r :: rs => if r.id == row.id then row :: rs else r :: upsertRelated row rs

/-- Insert a join row if not already present.  Modelled from the spec: the
cascading save of a Many2Many association adds the missing join rows and
leaves existing ones untouched (§8 Many2Many scenario). -/
def insertJoin (j : JoinRow) (l : List JoinRow) : List JoinRow :=
  if l.contains j then l else l ++ [j]

/-- Modelled from the spec: the cascading save of one owner's relationship
value (§4.4 persistence step; the save verb of §6, which is not part of
`src/`).  HasOne/HasMany persist each related value with its foreign key
set to the owner's primary key; BelongsTo persists the related value;
Many2Many persists the related values and the owner's join rows. -/
def cascadeOwner (k : RelType) (o : Owner) (db : DBState) : DBState :=
  match k with
  | .hasOne =>
    match o.relSingle with
    | none => db
    | some r =>
      let rows := upsertRelated { id := r.id, fk := some o.id } db.relatedRows
      { db with relatedRows := rows }
  | .hasMany =>
    let rows :=
      o.relMany.foldl (fun acc r => upsertRelated { id := r.id, fk := some o.id } acc)
        db.relatedRows
    { db with relatedRows := rows }
  | .belongsTo =>
    match o.relSingle with
    | none => db
    | some r => { db with relatedRows := upsertRelated r db.relatedRows }
  | .many2many =>
    let rows := o.relMany.foldl (fun acc r => upsertRelated r acc) db.relatedRows
    let js :=
      o.relMany.foldl (fun acc r => insertJoin { ownerKey := o.id, relKey := r.id } acc)
        db.joinRows
    { relatedRows := rows, joinRows := js }

/-- Modelled from the spec: a BelongsTo save also writes the owner's
foreign-key column from the association field (§4.4: foreign-key columns
are among the saved columns). -/
def fixOwnerFk (k : RelType) (o : Owner) : Owner :=
  match k with
  | .belongsTo => { o with ownerFk := o.relSingle.map (·.id) }
  | _ => o

/-- Cascading save of all owners (`association.DB.Save(reflectValue)`). -/
def applySave (k : RelType) (os : List Owner) (db : DBState) : DBState :=
  os.foldl (fun d o => cascadeOwner k o d) db

/-- Map a function over the owner set. -/
def mapOwners (f : Owner → Owner) : OwnerSet → OwnerSet
  | .single o => .single (f o)
  | .coll os => .coll (os.map f)

/-- Modelled from the spec: the state transition the external execution
layer performs for each successfully executed persistence call (§6 verbs
`find`, `count`, `updateColumns`, `delete`, `save`).  `updateOwnerFK`
(the BelongsTo branch of Delete, an update of the owner table) acts on
owner-table columns outside the modelled database state. -/
def applyCall (c : PersistCall) (s : Association) : Association :=
  match c with
  | .save k os =>
    { s with db := applySave k os s.db, owners := mapOwners (fixOwnerFk k) s.owners }
  | .saveSelect _ k os =>
    { s with db := applySave k os s.db, owners := mapOwners (fixOwnerFk k) s.owners }
  | .findQ _ _ => s
  | .countQ _ _ => s
  | .updateColumnsNull cols ids =>
    -- Modelled from the spec (§6 updateColumns verb): set each listed
    -- foreign-key column to NULL on the rows selected by the owner-key
    -- membership condition.  An update that lists NO columns (an empty SET
    -- map) changes nothing.
    if cols = [] then s
    else
      let rows := s.db.relatedRows.map (nullFkIfIn ids)
      { s with db := { s.db with relatedRows := rows } }
  | .deleteJoinRows conds =>
    let js := s.db.joinRows.filter (fun j => !(conds.any (fun c => joinMatchB c j)))
    { s with db := { s.db with joinRows := js } }
  | .updateNullFKScoped keys ids =>
    let rows := s.db.relatedRows.map (fun r =>
      if keys.contains (KeyV.n r.fk) && fkHit ids r then { r with fk := none } else r)
    { s with db := { s.db with relatedRows := rows } }
  | .updateOwnerFK _ => s
  | .deleteJoinScoped relKeys ids =>
    let js := s.db.joinRows.filter (fun j =>
      !(relKeys.contains (KeyV.n (some j.relKey)) && ids.contains j.ownerKey))
    { s with db := { s.db with joinRows := js } }

/-- Issue one persistence call: ask the execution layer, apply the state
transition on success, record the call in the trace either way, and return
the call's error so the caller can decide (as the source does per call
site) whether to assign it to `association.Error`. -/
def runCall (ex : Exec) (c : PersistCall) (s : Association) : Association × Option Nat :=
  match ex.err c with
  | some e => ({ s with trace := s.trace ++ [c] }, some e)
  | none =>
    let s1 := applyCall c s
    ({ s1 with trace := s.trace ++ [c] }, none)

/-- Modelled from the spec (§4.1 Condition Builder, §6 query execution):
the related rows selected by `Relationship.ToQueryConditions(reflectValue)`
(plus, for Many2Many, the join-table join of src lines 43-51). -/
def assocRows (k : RelType) (ow : OwnerSet) (db : DBState) : List Related :=
  match k with
  | .hasOne => db.relatedRows.filter (fkHit (ownerIds ow))
  | .hasMany => db.relatedRows.filter (fkHit (ownerIds ow))
  | .belongsTo =>
    db.relatedRows.filter (fun r => ow.list.any (fun o => o.ownerFk == some r.id))
  | .many2many =>
    db.relatedRows.filter (fun r =>
      db.joinRows.any (fun j => j.relKey == r.id && (ownerIds ow).contains j.ownerKey))

/-- `schema.Field.Set` of a singular relation field (HasOne/BelongsTo branch
of `appendToRelations`, src 277-285).  gorm's setter dereferences pointers;
a value that cannot be assigned yields a set error.  The source ASSIGNS the
result to `association.Error` (src 281, 284), so the returned option
replaces the handle's error at those call sites. -/
def setSingle (o : Owner) (v : ElemVal) : Owner × Option AErr :=
  match v with
  | .rel r => ({ o with relSingle := some r }, none)
  | .ptr r => ({ o with relSingle := some r }, none)
  | .bad t => (o, some (.setFailed t))

/-- The element values an argument contributes (`rv.Kind()` dispatch of
src 303-310: a struct is one element, a slice contributes each element). -/
def elemsOf : RawVal → List ElemVal
  | .structV v => [v]
  | .slice vs => vs

/-- `appendToFieldValues` (src 293-301): append an element assignable to the
relationship's element type (unwrapping a container whose `Elem()` is
assignable), otherwise record the "unsupported data type ... for relation"
error (overwriting `association.Error`, as the source assignment does)
and do not append. -/
def appendToFieldValues (acc : List Related × Option AErr) (ev : ElemVal) :
    List Related × Option AErr :=
  match ev with
  | .rel r => (acc.1 ++ [r], acc.2)
  | .ptr r => (acc.1 ++ [r], acc.2)
  | .bad t => (acc.1, some (.unsupportedType t))

/-- `appendToRelations(source, rv, clear)` (src 275-316).  For collection
kinds the source reads the starting field value off the statement's reflect
value (src 288 passes `reflectValue`, not `source`); for a single-owner
statement these coincide, and the read is modelled through the spec's
field-access capability as the owner's current collection.  The final
`Field.Set` only runs when `association.Error` is still nil (src 312-314). -/
def appendToRelations (k : RelType) (source : Owner) (rv : RawVal) (clear : Bool)
    (err : Option AErr) : Owner × Option AErr :=
  match k with
  | .hasOne | .belongsTo =>
    (match rv with
     | .slice [] => (source, err)
     | .slice (v :: _) => setSingle source v
     | .structV v => setSingle source v)
  | .hasMany | .many2many =>
    let fv0 : List Related := if clear then [] else source.relMany
    let res := (elemsOf rv).foldl appendToFieldValues (fv0, err)
    if res.2 = none then ({ source with relMany := res.1 }, none)
    else (source, res.2)

/-- `Field.Set(owner, reflect.New(Field.IndirectFieldType))` (src 331, 347):
reset the relationship field to its zero/empty value. -/
def clearField (k : RelType) (o : Owner) : Owner :=
  match k with
  | .hasOne | .belongsTo => { o with relSingle := none }
  | .hasMany | .many2many => { o with relMany := [] }

/-- `selectedColumns` (src 318-324): the relationship name plus the
foreign-key column of every reference not owned by the owner's primary
key, instantiated for the canonical schema. -/
def selectedColumns (k : RelType) : List String :=
  match k with
  | .hasOne | .hasMany => ["RelField"]
  | .belongsTo => ["RelField", "owner_fk"]
  | .many2many => ["RelField", "rel_key"]

/-- The per-owner loop of `saveAssociation`'s slice branch (src 338-344):
owner `i` is paired with `values[i]`, and the zero-primary-key flag is
accumulated.  Returns `none` when the source would index `values` out of
range (`len(values) < reflectValue.Len()`, a runtime panic in Go). -/
def saveLoop (k : RelType) (clear : Bool) :
    List Owner → List RawVal → Option AErr → Bool →
      Option (List Owner × Option AErr × Bool)
  | [], _, err, hz => some ([], err, hz)
  | _ :: _, [], _, _ => none
  | o :: os, v :: vs, err, hz =>
    let p := appendToRelations k o v clear err
    let hz1 := hz || decide (o.id = 0)
    match saveLoop k clear os vs p.2 hz1 with
    | none => none
    | some (os1, e1, h1) => some (p.1 :: os1, e1, h1)

/-- The per-value loop of `saveAssociation`'s struct branch (src 350-352):
every value is applied to the single owner, `clear` only on the first. -/
def saveStructLoop (k : RelType) (clear : Bool) :
    List RawVal → Nat → Owner → Option AErr → Owner × Option AErr
  | [], _, o, err => (o, err)
  | v :: vs, idx, o, err =>
    let p := appendToRelations k o v (clear && idx == 0) err
    saveStructLoop k clear vs (idx + 1) p.1 p.2

/-- The persistence step closing `saveAssociation` (src 357-361): a full
`Save` when some owner has a zero primary key, otherwise a `Save`
restricted to the selected columns.  The source DISCARDS the call's
result, so a failing save leaves `association.Error` untouched. -/
def persistStep (ex : Exec) (k : RelType) (hasZero : Bool) (s : Association) : Association :=
  let c :=
    if hasZero then PersistCall.save k s.owners.list
    else PersistCall.saveSelect (selectedColumns k) k s.owners.list
  (runCall ex c s).1

/-- `Association.saveAssociation(clear, values...)` (src 272-362).  Returns
`none` where the Go code would panic (slice owners with fewer values than
owners and no clear short-cut). -/
def saveAssociation (ex : Exec) (k : RelType) (clear : Bool) (values : List RawVal)
    (s : Association) : Option Association :=
  match s.owners with
  | .coll os =>
    if values.length ≠ os.length ∧ clear ∧ values.length = 0 then
      -- src 329-334: clear every owner's field and break before the loop
      let os1 := os.map (clearField k)
      some (persistStep ex k false { s with owners := .coll os1 })
    else
      -- src 335: the length-mismatch error is set but execution CONTINUES
      let err0 := if values.length ≠ os.length then some AErr.lengthMismatch else s.err
      match saveLoop k clear os values err0 false with
      | none => none
      | some (os1, e1, hz) =>
        some (persistStep ex k hz { s with owners := .coll os1, err := e1 })
  | .single o =>
    let o0 := if clear ∧ values.length = 0 then clearField k o else o
    let p := saveStructLoop k clear values 0 o0 s.err
    let hz := decide (p.1.id = 0)
    some (persistStep ex k hz { s with owners := .single p.1, err := p.2 })

/-- `Association.Replace(values...)` (src 77-152).  After `saveAssociation`
the stale-association phase runs WITHOUT re-checking `association.Error`,
and the result of its `UpdateColumns` (src 103) / `Delete` (src 148) is
discarded.  HasOne/HasMany: the reference loop (src 92-99) collects the
owner-side primary fields, but appends the foreign-key columns to
`foreignKeys`/`updateMap` only for references with `OwnPrimaryKey = false`
— the canonical has-schema has none — so the `UpdateColumns` at src 103 is
issued with the EMPTY `replaceStaleColumns` SET map over the owner-key
membership condition and sets nothing.  Many2Many: delete join rows
matching any per-owner condition built by `generateConds` (src 125-137)
from the owner's key and its post-save relationship field; the combination
of the per-owner conditions by `Where(conds)` is modelled from the spec as
per-owner scoping (§4.3 Replace, Many2Many). -/
def Replace (ex : Exec) (k : RelType) (values : List RawVal) (s : Association) :
    Option Association :=
  if s.err = none then
    match saveAssociation ex k true values s with
    | none => none
    | some s1 =>
      match k with
      | .hasOne | .hasMany =>
        some (runCall ex
          (PersistCall.updateColumnsNull replaceStaleColumns (ownerIds s1.owners)) s1).1
      | .many2many =>
        let conds := s1.owners.list.map (fun o => (o.id, o.relMany.map (·.id)))
        some (runCall ex (PersistCall.deleteJoinRows conds) s1).1
      | .belongsTo => some s1
  else some s

/-- `Association.Append(values...)` (src 62-75): HasOne/BelongsTo delegate
to `Replace` when at least one value is given; collection kinds delegate to
`saveAssociation(clear = false)`. -/
def Append (ex : Exec) (k : RelType) (values : List RawVal) (s : Association) :
    Option Association :=
  if s.err = none then
    match k with
    | .hasOne | .belongsTo =>
      if values.length > 0 then Replace ex k values s else some s
    | .hasMany | .many2many => saveAssociation ex k false values s
  else some s

/-- `Association.Clear()` (src 242-244): exactly `Replace()` with no values. -/
def Clear (ex : Exec) (k : RelType) (s : Association) : Option Association :=
  Replace ex k [] s

/-- `Association.Find(out, conds...)` (src 36-60): apply the relationship
query conditions (with the join-table join for Many2Many) and run the
external find; the execution error is assigned to `association.Error`.
The optional extra conditions are not exercised by any claim and are
omitted.  Returns the populated `out` (empty when skipped or failed). -/
def Find (ex : Exec) (k : RelType) (s : Association) : Association × List Related :=
  if s.err = none then
    let r := runCall ex (PersistCall.findQ k s.owners.list) s
    match r.2 with
    | some e => ({ r.1 with err := some (.execErr e) }, [])
    | none => ({ r.1 with err := none }, assocRows k r.1.owners s.db)
  else (s, [])

/-- `Association.Count()` (src 246-270): same condition construction as
Find, executing a count; on failure the count stays zero and the error is
assigned to the handle. -/
def Count (ex : Exec) (k : RelType) (s : Association) : Association × Nat :=
  if s.err = none then
    let r := runCall ex (PersistCall.countQ k s.owners.list) s
    match r.2 with
    | some e => ({ r.1 with err := some (.execErr e) }, 0)
    | none => ({ r.1 with err := none }, (assocRows k s.owners s.db).length)
  else (s, 0)

/-- The key of a passed value over `relFields`
(`schema.GetIdentityFieldValuesMapFromValues(values, relFields)`, src 181):
for HasOne/HasMany `relFields` is the related type's foreign-key field
(src 169-170); for BelongsTo/Many2Many it is the related primary key
(src 172). -/
def valueKey (k : RelType) (r : Related) : KeyV :=
  match k with
  | .hasOne | .hasMany => .n r.fk
  | .belongsTo | .many2many => .n (some r.id)

/-- The key of one in-memory collection element (src 206-208 reads the
`relFields` off the element itself). -/
def elemKey (k : RelType) (r : Related) : KeyV := valueKey k r

/-- src 216-219: in the singular (struct) case the source reads the
`relFields` off the OWNER value `data` instead of the relationship field
value; a field identifier of the related schema read on a value of the
owner type never yields the related-side key, modelled as a stray key. -/
def strayKey (o : Owner) : KeyV := .stray o.id

/-- `cleanUpDeletedRelations` (src 197-225): reconcile one owner's
in-memory relationship field after a successful persisted delete.  The
field is skipped when zero (src 198); a collection keeps exactly the
elements whose key is not in the deleted-values identity map; a singular
field is zeroed when the key read (off the owner, see `strayKey`) is in
the map. -/
def cleanUpDeletedRelations (k : RelType) (keys : List KeyV) (o : Owner) : Owner :=
  match k with
  | .hasMany | .many2many =>
    if o.relMany = [] then o
    else { o with relMany := o.relMany.filter (fun r => !(keys.contains (elemKey k r))) }
  | .hasOne | .belongsTo =>
    match o.relSingle with
    | none => o
    | some _ =>
      if keys.contains (strayKey o) then { o with relSingle := none } else o

/-- The net effect of one `Clear` on the persisted state (for statements
about `Clear`): Many2Many deletes every join row of an owner key; HasOne
and HasMany leave the related table UNTOUCHED, because the stale-row
update of src 92-103 lists no columns to set (see `replaceStaleColumns`);
BelongsTo issues no phase at all (the owner's own fk column is
in-memory/owner-table state). -/
def clearDb (k : RelType) (ids : List Nat) (db : DBState) : DBState :=
  match k with
  | .hasOne | .hasMany => db
  | .many2many =>
    { db with joinRows := db.joinRows.filter (fun j => !(ids.contains j.ownerKey)) }
  | .belongsTo => db

/-- The collection-field reconciliation as the spec states it for Delete
(§4.3, "remove them from a collection field"): keep exactly the elements
whose identity key over `relFields` is not among the passed values' keys.
Stated separately so the source's `cleanUpDeletedRelations` can be
compared against it. -/
def specCollectionCleanup (k : RelType) (keys : List KeyV) (o : Owner) : Owner :=
  { o with relMany := o.relMany.filter (fun r => !(keys.contains (elemKey k r))) }

/-- `Association.Delete(values...)` (src 154-240): build the identity keys
of the passed values over `relFields`, issue the kind-specific persisted
mutation scoped by both the owner condition and the values condition, and
only on success reconcile the in-memory fields; on failure assign the
execution error to the handle (src 236) and change nothing in memory. -/
def Delete (ex : Exec) (k : RelType) (values : List Related) (s : Association) :
    Association :=
  if s.err = none then
    let keys := values.map (valueKey k)
    let ids := ownerIds s.owners
    let c :=
      match k with
      | .hasOne | .hasMany => PersistCall.updateNullFKScoped keys ids
      | .belongsTo => PersistCall.updateOwnerFK keys
      | .many2many => PersistCall.deleteJoinScoped keys ids
    let r := runCall ex c s
    match r.2 with
    | some e => { r.1 with err := some (.execErr e) }
    | none => { r.1 with owners := mapOwners (cleanUpDeletedRelations k keys) r.1.owners }
  else s

/-!
## Theorems
-/

/-- C10: for a HasOne or BelongsTo relationship on a handle with no prior
error, `Append()` with zero values is a complete no-op: it returns the
state unchanged — nil error, no persistence call recorded, relationship
field untouched (src 62-75: the `len(values) > 0` guard skips everything). -/
theorem C10_append_no_values_noop (ex : Exec) (k : RelType)
    (hk : k = RelType.hasOne ∨ k = RelType.belongsTo)
    (s : Association) (h : s.err = none) :
    Append ex k [] s = some s := by
  rcases hk with rfl | rfl <;> simp [Append, h]

/-- Witness for C10 at a concrete handle (owner id 1, empty database, a
persistence layer that would fail every call — none is issued). -/
theorem C10_witness :
    (⟨.single ⟨1, none, none, []⟩, ⟨[], []⟩, none, []⟩ : Association).err = none ∧
    Append (failAll 3) .hasOne [] ⟨.single ⟨1, none, none, []⟩, ⟨[], []⟩, none, []⟩ =
      some ⟨.single ⟨1, none, none, []⟩, ⟨[], []⟩, none, []⟩ :=
  ⟨rfl, C10_append_no_values_noop (failAll 3) .hasOne (Or.inl rfl) _ rfl⟩

/-- C3 (code behaviour at the failing input): for the collection owner set
`[owner 1]` (N = 1) and the non-clear value list of length M = 2 on a
HasMany relationship, `Append` does set the length-mismatch error, but it
does NOT return immediately: it still issues the owner `Save` persistence
call (src 335 sets the error without returning; src 357-361 save
unconditionally).  And with M = 1 < N = 2 the source indexes `values[i]`
out of range inside the loop (a Go runtime panic, modelled as `none`), so
no error is returned at all. -/
theorem C3_length_mismatch_still_persists :
    ((Append okExec .hasMany
        [.structV (.rel ⟨2, none⟩), .structV (.rel ⟨3, none⟩)]
        ⟨.coll [⟨1, none, none, []⟩], ⟨[], []⟩, none, []⟩).map
      (fun s => (s.err, s.trace)) =
      some (some AErr.lengthMismatch,
        [.saveSelect ["RelField"] .hasMany [⟨1, none, none, []⟩]])) ∧
    Append okExec .hasMany [.structV (.rel ⟨2, none⟩)]
      ⟨.coll [⟨1, none, none, []⟩, ⟨2, none, none, []⟩], ⟨[], []⟩, none, []⟩ = none := by
  exact ⟨rfl, rfl⟩

/-- C2 (code behaviour at the failing input): HasMany owner `{id 1}` with an
empty database; `Replace(V1 = [row 10])` then `Replace(V2 = [row 12])`
followed by `Find` returns BOTH rows 10 and 12, not exactly V2 — the
stale-row update of src 92-103 lists no columns to set (its reference loop
appends the foreign-key columns only for `OwnPrimaryKey = false`
references, of which the has-schema has none), so row 10 keeps its foreign
key 1 from the first Replace and survives the second. -/
theorem C2_replace_leaves_stale_rows :
    ∃ s1 s2, Replace okExec .hasMany [.structV (.rel ⟨10, none⟩)]
        ⟨.single ⟨1, none, none, []⟩, ⟨[], []⟩, none, []⟩ = some s1 ∧
      Replace okExec .hasMany [.structV (.rel ⟨12, none⟩)] s1 = some s2 ∧
      s2.err = none ∧
      s2.db.relatedRows = [⟨10, some 1⟩, ⟨12, some 1⟩] ∧
      (Find okExec .hasMany s2).2 = [⟨10, some 1⟩, ⟨12, some 1⟩] ∧
      (Find okExec .hasMany s2).2 ≠ [⟨12, some 1⟩] := by
  exact ⟨_, _, rfl, rfl, rfl, rfl, rfl, by decide⟩

/-- C6 counterexample: on a HasOne relationship, `Append(a, b)` with two
values leaves the owner's relationship field holding the LAST supplied
value `b`, not the first `a` as the claim states: the per-value loop of
src 350-352 calls `Field.Set` once per value, each call overwriting the
previous one. -/
theorem C6_counterexample :
    ∃ s1, Append okExec .hasOne
        [.structV (.rel ⟨1, none⟩), .structV (.rel ⟨2, none⟩)]
        ⟨.single ⟨7, none, none, []⟩, ⟨[], []⟩, none, []⟩ = some s1 ∧
      s1.owners = .single ⟨7, none, some ⟨2, none⟩, []⟩ ∧
      s1.owners ≠ .single ⟨7, none, some ⟨1, none⟩, []⟩ := by
  exact ⟨_, rfl, rfl, by decide⟩

/-- The struct-owner loop of `saveAssociation` on a singular relationship:
applying a non-empty list of struct values sets the field once per value,
so the final field value is the LAST of the list (and the last `Field.Set`
result, nil, is left in `association.Error`). -/
lemma saveStructLoop_structs_last (k : RelType)
    (hk : k = RelType.hasOne ∨ k = RelType.belongsTo) (clear : Bool) :
    ∀ (rs : List Related) (idx : Nat) (o : Owner) (err : Option AErr),
      saveStructLoop k clear (rs.map (fun r => RawVal.structV (.rel r))) idx o err =
        (match rs.getLast? with
         | none => (o, err)
         | some r => ({ o with relSingle := some r }, none)) := by
  intro rs
  induction rs with
  | nil => intro idx o err; simp [saveStructLoop]
  | cons r rest ih =>
    intro idx o err
    rcases hk with rfl | rfl <;>
      · rw [List.map_cons]
        simp only [saveStructLoop, appendToRelations, setSingle]
        rw [ih]
        cases hrest : rest.getLast? with
        | none =>
          have hr : rest = [] := List.getLast?_eq_none_iff.mp hrest
          subst hr; simp
        | some r2 =>
          have hne : rest ≠ [] := by
            intro hc; subst hc; simp at hrest
          obtain ⟨a, l, rfl⟩ := List.exists_cons_of_ne_nil hne
          rw [List.getLast?_cons_cons, hrest]

/-- `persistStep` under the succeeding execution layer: the owners become
the saved owners with the BelongsTo foreign-key fixup applied. -/
lemma persistStep_owners_ok (k : RelType) (hz : Bool) (s : Association) :
    (persistStep okExec k hz s).owners = mapOwners (fixOwnerFk k) s.owners := by
  cases hz <;> simp [persistStep, runCall, okExec, applyCall]

/-- `persistStep` never touches `association.Error` (src 357-361 discard the
result of `Save`). -/
lemma persistStep_err (ex : Exec) (k : RelType) (hz : Bool) (s : Association) :
    (persistStep ex k hz s).err = s.err := by
  cases hz <;>
    · simp only [persistStep, runCall]
      split <;> simp [applyCall]

/-- C6 (amended): on HasOne/BelongsTo, `Append` with at least one value is
exactly `Replace` of ALL the values, and the relationship field ends at
the LAST supplied value (each value overwrites the previous one); values
before the last are the ones ignored. -/
theorem C6_amended :
    (∀ (ex : Exec) (k : RelType), (k = RelType.hasOne ∨ k = RelType.belongsTo) →
       ∀ (values : List RawVal) (s : Association), values ≠ [] →
         Append ex k values s = Replace ex k values s) ∧
    (∀ (k : RelType), (k = RelType.hasOne ∨ k = RelType.belongsTo) →
       ∀ (rs : List Related), rs ≠ [] →
         ∀ (o : Owner) (db : DBState) (tr : List PersistCall),
           ∃ s1, Append okExec k (rs.map (fun r => RawVal.structV (.rel r)))
               ⟨.single o, db, none, tr⟩ = some s1 ∧
             ∃ o1, s1.owners = .single o1 ∧ o1.relSingle = rs.getLast?) := by
  constructor
  · intro ex k hk values s hv
    by_cases h : s.err = none
    · rcases hk with rfl | rfl <;>
        simp [Append, h, List.length_pos.mpr hv]
    · rcases hk with rfl | rfl <;> simp [Append, Replace, h]
  · intro k hk rs hrs o db tr
    obtain ⟨rl, hrl⟩ : ∃ r, rs.getLast? = some r := by
      cases hL : rs.getLast? with
      | none => exact absurd (List.getLast?_eq_none_iff.mp hL) hrs
      | some r => exact ⟨r, rfl⟩
    have hlast := saveStructLoop_structs_last k hk true rs 0 o none
    rw [hrl] at hlast
    have hlen : rs.length ≠ 0 := fun hc => hrs (List.length_eq_zero.mp hc)
    rcases hk with rfl | rfl <;> by_cases h0 : o.id = 0 <;>
      simp [Append, Replace, saveAssociation, hlast, hlen, hrl,
        persistStep, runCall, okExec, applyCall, mapOwners, fixOwnerFk, h0,
        List.length_pos, hrs, replaceStaleColumns]

/-- C1 counterexample: at the explicit input (single HasMany owner id 1,
empty database, no prior error), `Replace` of a value of an unsupported
type has `saveAssociation` set the handle's error, yet the stale-row
update phase STILL runs: the trace shows the owner `Save` and the
`UpdateColumns` call (with its empty column list, see
`replaceStaleColumns`) issued after the error was set, contradicting the
claim that the phase never runs once `saveAssociation` failed. -/
theorem C1_counterexample :
    ∃ s1, Replace okExec .hasMany [RawVal.structV (.bad "Post")]
        ⟨.single ⟨1, none, none, []⟩, ⟨[], []⟩, none, []⟩ = some s1 ∧
      s1.err = some (.unsupportedType "Post") ∧
      s1.trace = [.saveSelect ["RelField"] .hasMany [⟨1, none, none, []⟩],
                  .updateColumnsNull replaceStaleColumns [1]] :=
  ⟨_, rfl, rfl, rfl⟩

/-- C1 (amended): every operation invoked on a handle whose error is
already set is a no-op returning the unchanged state (the entry guards of
src 37, 63, 78, 155, 247); HOWEVER, within `Replace` the
null-stale-rows phase is not guarded: when `saveAssociation` itself sets
the error, the phase still runs and issues its persistence call
(src 78-103 never re-check `association.Error` after `saveAssociation`). -/
theorem C1_amended :
    (∀ (ex : Exec) (k : RelType) (vs : List RawVal) (dvs : List Related)
        (s : Association) (e : AErr), s.err = some e →
       Find ex k s = (s, []) ∧ Count ex k s = (s, 0) ∧
       Append ex k vs s = some s ∧ Replace ex k vs s = some s ∧
       Clear ex k s = some s ∧ Delete ex k dvs s = s) ∧
    (∀ (o : Owner) (db : DBState) (tr : List PersistCall) (t : String),
       ∃ s1, Replace okExec .hasMany [RawVal.structV (.bad t)]
           ⟨.single o, db, none, tr⟩ = some s1 ∧
         s1.err = some (.unsupportedType t) ∧
         PersistCall.updateColumnsNull replaceStaleColumns [o.id] ∈ s1.trace) := by
  constructor
  · intro ex k vs dvs s e h
    refine ⟨?_, ?_, ?_, ?_, ?_, ?_⟩ <;>
      simp [Find, Count, Append, Replace, Clear, Delete, h]
  · intro o db tr t
    by_cases h0 : o.id = 0 <;>
      simp [Replace, saveAssociation, saveStructLoop, appendToRelations,
        appendToFieldValues, elemsOf, persistStep, runCall, okExec, applyCall,
        mapOwners, fixOwnerFk, ownerIds, OwnerSet.list, replaceStaleColumns, h0]

/-- Witness for the sticky-entry part of C1 at a concrete handle whose
error is already set: all six operations return the unchanged state. -/
theorem C1_witness :
    Find (failAll 5) .hasMany
        ⟨.single ⟨1, none, none, []⟩, ⟨[], []⟩, some (.execErr 9), []⟩ =
      (⟨.single ⟨1, none, none, []⟩, ⟨[], []⟩, some (.execErr 9), []⟩, []) ∧
    Count (failAll 5) .hasMany
        ⟨.single ⟨1, none, none, []⟩, ⟨[], []⟩, some (.execErr 9), []⟩ =
      (⟨.single ⟨1, none, none, []⟩, ⟨[], []⟩, some (.execErr 9), []⟩, 0) ∧
    Append (failAll 5) .hasMany []
        ⟨.single ⟨1, none, none, []⟩, ⟨[], []⟩, some (.execErr 9), []⟩ =
      some ⟨.single ⟨1, none, none, []⟩, ⟨[], []⟩, some (.execErr 9), []⟩ ∧
    Replace (failAll 5) .hasMany []
        ⟨.single ⟨1, none, none, []⟩, ⟨[], []⟩, some (.execErr 9), []⟩ =
      some ⟨.single ⟨1, none, none, []⟩, ⟨[], []⟩, some (.execErr 9), []⟩ ∧
    Clear (failAll 5) .hasMany
        ⟨.single ⟨1, none, none, []⟩, ⟨[], []⟩, some (.execErr 9), []⟩ =
      some ⟨.single ⟨1, none, none, []⟩, ⟨[], []⟩, some (.execErr 9), []⟩ ∧
    Delete (failAll 5) .hasMany [⟨3, none⟩]
        ⟨.single ⟨1, none, none, []⟩, ⟨[], []⟩, some (.execErr 9), []⟩ =
      ⟨.single ⟨1, none, none, []⟩, ⟨[], []⟩, some (.execErr 9), []⟩ := by
  have h := C1_amended.1 (failAll 5) .hasMany [] [⟨3, none⟩]
    ⟨.single ⟨1, none, none, []⟩, ⟨[], []⟩, some (.execErr 9), []⟩ (.execErr 9) rfl
  exact ⟨h.1, h.2.1, h.2.2.1, h.2.2.2.1, h.2.2.2.2.1, h.2.2.2.2.2⟩

/-- C5 counterexample: at the explicit input, the stale-row
`UpdateColumns` of `Replace` fails (error 7 from the execution layer), the
call is in the trace, yet the handle's error remains nil — the source
discards the result at src 103, so the persistence error is silently
dropped, contradicting the claim that every failing persistence call sets
the handle's error. -/
theorem C5_counterexample :
    ∃ s1, Replace (failUpdateNull 7) .hasMany [RawVal.structV (.rel ⟨2, none⟩)]
        ⟨.single ⟨1, none, none, []⟩, ⟨[], []⟩, none, []⟩ = some s1 ∧
      s1.err = none ∧
      s1.trace = [.saveSelect ["RelField"] .hasMany [⟨1, none, none, [⟨2, none⟩]⟩],
                  .updateColumnsNull replaceStaleColumns [1]] ∧
      (failUpdateNull 7).err (.updateColumnsNull replaceStaleColumns [1]) = some 7 :=
  ⟨_, rfl, rfl, rfl, rfl⟩

/-- `applyCall` never touches the handle's error: the execution layer only
transforms owners and database state. -/
lemma applyCall_err (c : PersistCall) (s : Association) : (applyCall c s).err = s.err := by
  cases c <;> first
    | rfl
    | (simp only [applyCall]; split <;> rfl)

/-- `runCall` never itself assigns the handle's error; each call site
decides (per the source) whether to assign the returned error. -/
lemma runCall_err (ex : Exec) (c : PersistCall) (s : Association) :
    ((runCall ex c s).1).err = s.err := by
  cases h : ex.err c <;> simp [runCall, h, applyCall_err]

/-- C5 (amended): Find, Count and Delete do surface a failing persistence
call on the handle — in particular `Count` returns a zero count alongside
the recorded error — but the errors of `Replace`'s stale-row update /
join-row delete (src 103, 148) and of `saveAssociation`'s closing `Save`
(src 357-361) are discarded and never reach the handle: whatever the
execution layer answers, `Replace`'s resulting error is exactly the one
`saveAssociation` left, and the persistence step's error is exactly the
one it was entered with. -/
theorem C5_amended :
    (∀ (e : Nat) (k : RelType) (s : Association), s.err = none →
       Count (failAll e) k s =
         ({ s with trace := s.trace ++ [.countQ k s.owners.list],
                   err := some (.execErr e) }, 0)) ∧
    (∀ (e : Nat) (k : RelType) (s : Association), s.err = none →
       Find (failAll e) k s =
         ({ s with trace := s.trace ++ [.findQ k s.owners.list],
                   err := some (.execErr e) }, [])) ∧
    (∀ (e : Nat) (k : RelType) (values : List Related) (s : Association), s.err = none →
       ∃ c, Delete (failAll e) k values s =
         { s with trace := s.trace ++ [c], err := some (.execErr e) }) ∧
    (∀ (ex : Exec) (k : RelType) (values : List RawVal) (s : Association), s.err = none →
       (Replace ex k values s).map Association.err =
         (saveAssociation ex k true values s).map Association.err) ∧
    (∀ (ex : Exec) (k : RelType) (hz : Bool) (s : Association),
       (persistStep ex k hz s).err = s.err) := by
  refine ⟨?_, ?_, ?_, ?_, ?_⟩
  · intro e k s h; simp [Count, runCall, failAll, h]
  · intro e k s h; simp [Find, runCall, failAll, h]
  · intro e k values s h
    cases k with
    | hasOne =>
      exact ⟨.updateNullFKScoped (values.map (valueKey .hasOne)) (ownerIds s.owners),
        by simp [Delete, runCall, failAll, h]⟩
    | hasMany =>
      exact ⟨.updateNullFKScoped (values.map (valueKey .hasMany)) (ownerIds s.owners),
        by simp [Delete, runCall, failAll, h]⟩
    | belongsTo =>
      exact ⟨.updateOwnerFK (values.map (valueKey .belongsTo)),
        by simp [Delete, runCall, failAll, h]⟩
    | many2many =>
      exact ⟨.deleteJoinScoped (values.map (valueKey .many2many)) (ownerIds s.owners),
        by simp [Delete, runCall, failAll, h]⟩
  · intro ex k values s h
    simp only [Replace, h, if_pos]
    cases hsa : saveAssociation ex k true values s with
    | none => cases k <;> simp
    | some sA => cases k <;> simp [runCall_err]
  · exact persistStep_err

/-- Witness for C5 (amended) at a concrete handle and failing layer. -/
theorem C5_witness :
    Count (failAll 4) .many2many ⟨.single ⟨1, none, none, []⟩, ⟨[], []⟩, none, []⟩ =
      (⟨.single ⟨1, none, none, []⟩, ⟨[], []⟩, some (.execErr 4),
         [.countQ .many2many [⟨1, none, none, []⟩]]⟩, 0) ∧
    (∃ c, Delete (failAll 4) .hasMany [⟨2, some 1⟩]
        ⟨.single ⟨1, none, none, []⟩, ⟨[], []⟩, none, []⟩ =
      ⟨.single ⟨1, none, none, []⟩, ⟨[], []⟩, some (.execErr 4), [c]⟩) ∧
    (Replace (failAll 4) .hasMany [RawVal.structV (.rel ⟨2, none⟩)]
        ⟨.single ⟨1, none, none, []⟩, ⟨[], []⟩, none, []⟩).map Association.err =
      (saveAssociation (failAll 4) .hasMany true [RawVal.structV (.rel ⟨2, none⟩)]
        ⟨.single ⟨1, none, none, []⟩, ⟨[], []⟩, none, []⟩).map Association.err := by
  refine ⟨?_, ?_, ?_⟩
  · exact C5_amended.1 4 .many2many ⟨.single ⟨1, none, none, []⟩, ⟨[], []⟩, none, []⟩ rfl
  · exact C5_amended.2.2.1 4 .hasMany [⟨2, some 1⟩]
      ⟨.single ⟨1, none, none, []⟩, ⟨[], []⟩, none, []⟩ rfl
  · exact C5_amended.2.2.2.1 (failAll 4) .hasMany [RawVal.structV (.rel ⟨2, none⟩)]
      ⟨.single ⟨1, none, none, []⟩, ⟨[], []⟩, none, []⟩ rfl

/-- Witness for C6 (amended) at a concrete one-value append. -/
theorem C6_witness :
    Append okExec .hasOne [RawVal.structV (.rel ⟨3, none⟩)]
        ⟨.single ⟨1, none, none, []⟩, ⟨[], []⟩, none, []⟩ =
      Replace okExec .hasOne [RawVal.structV (.rel ⟨3, none⟩)]
        ⟨.single ⟨1, none, none, []⟩, ⟨[], []⟩, none, []⟩ ∧
    ∃ s1, Append okExec .hasOne
        (([⟨3, none⟩] : List Related).map (fun r => RawVal.structV (.rel r)))
        ⟨.single ⟨1, none, none, []⟩, ⟨[], []⟩, none, []⟩ = some s1 ∧
      ∃ o1, s1.owners = .single o1 ∧
        o1.relSingle = ([⟨3, none⟩] : List Related).getLast? :=
  ⟨C6_amended.1 okExec .hasOne (Or.inl rfl) [RawVal.structV (.rel ⟨3, none⟩)]
      ⟨.single ⟨1, none, none, []⟩, ⟨[], []⟩, none, []⟩ (by simp),
   C6_amended.2 .hasOne (Or.inl rfl) [⟨3, none⟩] (by simp)
      ⟨1, none, none, []⟩ ⟨[], []⟩ []⟩

/-- C8: on a HasMany or Many2Many relationship with no prior error,
appending a single value whose type is not assignable to the
relationship's element type (nor unwrappable to it) sets the handle's
error to the "unsupported data type for relation" kind, leaves the
owner's relationship field unchanged (the final `Field.Set` of src 312-314
is skipped), aborts the owner's update, and the only persistence call
issued carries the unchanged owner — the invalid value is never
persisted. -/
theorem C8_unsupported_type (k : RelType)
    (hk : k = RelType.hasMany ∨ k = RelType.many2many)
    (o : Owner) (db : DBState) (tr : List PersistCall) (t : String) :
    ∃ s1, Append okExec k [RawVal.structV (.bad t)] ⟨.single o, db, none, tr⟩ = some s1 ∧
      s1.err = some (.unsupportedType t) ∧
      s1.owners = .single o ∧
      (s1.trace = tr ++ [.save k [o]] ∨
       s1.trace = tr ++ [.saveSelect (selectedColumns k) k [o]]) := by
  rcases hk with rfl | rfl <;> by_cases h0 : o.id = 0 <;>
    simp [Append, saveAssociation, saveStructLoop, appendToRelations,
      appendToFieldValues, elemsOf, persistStep, runCall, okExec, applyCall,
      mapOwners, fixOwnerFk, OwnerSet.list, h0]

/-- Witness for C8 at a concrete owner already holding one related value. -/
theorem C8_witness :
    ∃ s1, Append okExec .many2many [RawVal.structV (.bad "Post")]
        ⟨.single ⟨1, none, none, [⟨5, none⟩]⟩, ⟨[⟨5, none⟩], [⟨1, 5⟩]⟩, none, []⟩ = some s1 ∧
      s1.err = some (.unsupportedType "Post") ∧
      s1.owners = .single ⟨1, none, none, [⟨5, none⟩]⟩ ∧
      (s1.trace = [] ++ [.save .many2many [⟨1, none, none, [⟨5, none⟩]⟩]] ∨
       s1.trace = [] ++ [.saveSelect (selectedColumns .many2many) .many2many
                           [⟨1, none, none, [⟨5, none⟩]⟩]]) :=
  C8_unsupported_type .many2many (Or.inr rfl) ⟨1, none, none, [⟨5, none⟩]⟩
    ⟨[⟨5, none⟩], [⟨1, 5⟩]⟩ [] "Post"

/-- The stray key read off an owner value is never among the identity keys
extracted from the passed related values (which are all `.n` keys). -/
lemma stray_not_in_value_keys (k : RelType) (values : List Related) (o : Owner) :
    ((values.map (valueKey k)).contains (strayKey o)) = false := by
  simp only [List.contains, List.elem_eq_mem, decide_eq_false_iff_not]
  intro hmem
  obtain ⟨v, _, he⟩ := List.mem_map.mp hmem
  cases k <;> simp [valueKey, strayKey] at he

/-- On a singular relationship, `cleanUpDeletedRelations` never changes the
owner: the key fields are read off the owner value (src 218), so the
membership test against the deleted-values identity map always fails. -/
lemma cleanUp_singular_id (k : RelType)
    (hk : k = RelType.hasOne ∨ k = RelType.belongsTo)
    (values : List Related) (o : Owner) :
    cleanUpDeletedRelations k (values.map (valueKey k)) o = o := by
  rcases hk with rfl | rfl <;>
    · cases hs : o.relSingle <;>
        simp only [cleanUpDeletedRelations, hs, stray_not_in_value_keys,
          Bool.false_eq_true, if_false]

/-- On a collection relationship, `cleanUpDeletedRelations` is exactly the
spec's key-based filter (the zero-field guard of src 198 makes no
difference for an empty collection). -/
lemma cleanUp_collection_eq (k : RelType)
    (hk : k = RelType.hasMany ∨ k = RelType.many2many)
    (keys : List KeyV) (o : Owner) :
    cleanUpDeletedRelations k keys o = specCollectionCleanup k keys o := by
  rcases hk with rfl | rfl <;>
    · by_cases h : o.relMany = [] <;> cases o <;>
        simp_all [cleanUpDeletedRelations, specCollectionCleanup]

/-- Mapping a pointwise-identity function over the owner set is the
identity. -/
lemma mapOwners_eq_self (f : Owner → Owner) (hf : ∀ o, f o = o) (ow : OwnerSet) :
    mapOwners f ow = ow := by
  have hfid : f = id := funext fun o => hf o
  subst hfid
  cases ow <;> simp [mapOwners]

/-- C7 counterexample: at the explicit input — HasOne owner id 1 whose
field holds related row 10 (foreign key 1), database row `{10, fk 1}` —
`Delete` of exactly that value succeeds (the persisted update nulls the
row's foreign key), yet the owner's singular relationship field is NOT
zeroed, contradicting the claim: src 218 reads the key fields off the
owner value instead of the field value, so the identity-map lookup fails. -/
theorem C7_counterexample :
    (Delete okExec .hasOne [⟨10, some 1⟩]
        ⟨.single ⟨1, none, some ⟨10, some 1⟩, []⟩, ⟨[⟨10, some 1⟩], []⟩, none, []⟩).err
        = none ∧
    (Delete okExec .hasOne [⟨10, some 1⟩]
        ⟨.single ⟨1, none, some ⟨10, some 1⟩, []⟩, ⟨[⟨10, some 1⟩], []⟩, none, []⟩).db
        = ⟨[⟨10, none⟩], []⟩ ∧
    (Delete okExec .hasOne [⟨10, some 1⟩]
        ⟨.single ⟨1, none, some ⟨10, some 1⟩, []⟩, ⟨[⟨10, some 1⟩], []⟩, none, []⟩).owners
        = .single ⟨1, none, some ⟨10, some 1⟩, []⟩ :=
  ⟨rfl, rfl, rfl⟩

/-- C7 (amended): Delete is atomic on failure — a failing persisted
mutation sets the handle's error and leaves owners and database untouched
(src 235-237) — and on success each owner's COLLECTION field keeps exactly
the elements whose identity key (over `relFields`) is not among the passed
values' keys; a SINGULAR field, however, is never zeroed, because the
source reads the key fields off the owner value rather than the field
value. -/
theorem C7_amended :
    (∀ (e : Nat) (k : RelType) (values : List Related) (s : Association), s.err = none →
       ∃ c, Delete (failAll e) k values s =
         { s with trace := s.trace ++ [c], err := some (.execErr e) }) ∧
    (∀ (k : RelType), (k = RelType.hasMany ∨ k = RelType.many2many) →
       ∀ (values : List Related) (s : Association), s.err = none →
         (Delete okExec k values s).owners =
           mapOwners (specCollectionCleanup k (values.map (valueKey k))) s.owners) ∧
    (∀ (k : RelType), (k = RelType.hasOne ∨ k = RelType.belongsTo) →
       ∀ (values : List Related) (s : Association), s.err = none →
         (Delete okExec k values s).owners = s.owners) := by
  refine ⟨?_, ?_, ?_⟩
  · intro e k values s h
    cases k with
    | hasOne =>
      exact ⟨.updateNullFKScoped (values.map (valueKey .hasOne)) (ownerIds s.owners),
        by simp [Delete, runCall, failAll, h]⟩
    | hasMany =>
      exact ⟨.updateNullFKScoped (values.map (valueKey .hasMany)) (ownerIds s.owners),
        by simp [Delete, runCall, failAll, h]⟩
    | belongsTo =>
      exact ⟨.updateOwnerFK (values.map (valueKey .belongsTo)),
        by simp [Delete, runCall, failAll, h]⟩
    | many2many =>
      exact ⟨.deleteJoinScoped (values.map (valueKey .many2many)) (ownerIds s.owners),
        by simp [Delete, runCall, failAll, h]⟩
  · intro k hk values s h
    have hfg : cleanUpDeletedRelations k (values.map (valueKey k)) =
        specCollectionCleanup k (values.map (valueKey k)) :=
      funext fun o => cleanUp_collection_eq k hk (values.map (valueKey k)) o
    rcases hk with rfl | rfl <;>
      simp [Delete, runCall, okExec, applyCall, h, hfg]
  · intro k hk values s h
    have hc := mapOwners_eq_self (cleanUpDeletedRelations k (values.map (valueKey k)))
      (cleanUp_singular_id k hk values) s.owners
    rcases hk with rfl | rfl <;>
      simp [Delete, runCall, okExec, applyCall, h, hc]

/-- Witness for C7 (amended) at concrete inputs: a failing delete on a
HasMany handle, and a succeeding delete reconciling a collection field. -/
theorem C7_witness :
    (∃ c, Delete (failAll 6) .hasMany [⟨10, some 1⟩]
        ⟨.single ⟨1, none, none, [⟨10, some 1⟩]⟩, ⟨[⟨10, some 1⟩], []⟩, none, []⟩ =
      ⟨.single ⟨1, none, none, [⟨10, some 1⟩]⟩, ⟨[⟨10, some 1⟩], []⟩,
        some (.execErr 6), [] ++ [c]⟩) ∧
    (Delete okExec .hasMany [⟨10, some 1⟩]
        ⟨.single ⟨1, none, none, [⟨10, some 1⟩]⟩, ⟨[⟨10, some 1⟩], []⟩, none, []⟩).owners =
      mapOwners
        (specCollectionCleanup .hasMany (([⟨10, some 1⟩] : List Related).map (valueKey .hasMany)))
        (OwnerSet.single ⟨1, none, none, [⟨10, some 1⟩]⟩) :=
  ⟨C7_amended.1 6 .hasMany [⟨10, some 1⟩]
      ⟨.single ⟨1, none, none, [⟨10, some 1⟩]⟩, ⟨[⟨10, some 1⟩], []⟩, none, []⟩ rfl,
   C7_amended.2.1 .hasMany (Or.inl rfl) [⟨10, some 1⟩]
      ⟨.single ⟨1, none, none, [⟨10, some 1⟩]⟩, ⟨[⟨10, some 1⟩], []⟩, none, []⟩ rfl⟩

/-- `insertJoin` preserves membership of existing join rows. -/
lemma mem_insertJoin (j j1 : JoinRow) (l : List JoinRow) (h : j ∈ l) :
    j ∈ insertJoin j1 l := by
  unfold insertJoin
  split
  · exact h
  · exact List.mem_append_left _ h

/-- A fold of `insertJoin` preserves membership of existing join rows. -/
lemma mem_foldl_insertJoin (oid : Nat) (rs : List Related) :
    ∀ (js : List JoinRow) (j : JoinRow), j ∈ js →
      j ∈ rs.foldl (fun acc r => insertJoin ⟨oid, r.id⟩ acc) js := by
  induction rs with
  | nil => intro js j h; exact h
  | cons r rest ih => intro js j h; exact ih _ _ (mem_insertJoin _ _ _ h)

/-- The cascading save of one owner only ever inserts join rows. -/
lemma mem_cascadeOwner_joins (k : RelType) (o : Owner) (db : DBState) (j : JoinRow)
    (h : j ∈ db.joinRows) : j ∈ (cascadeOwner k o db).joinRows := by
  cases k with
  | hasOne => cases hs : o.relSingle <;> simp [cascadeOwner, hs, h]
  | hasMany => simpa [cascadeOwner] using h
  | belongsTo => cases hs : o.relSingle <;> simp [cascadeOwner, hs, h]
  | many2many =>
    simpa [cascadeOwner] using mem_foldl_insertJoin o.id o.relMany db.joinRows j h

/-- The cascading save of a list of owners only ever inserts join rows. -/
lemma mem_applySave_joins (k : RelType) (os : List Owner) :
    ∀ (db : DBState) (j : JoinRow), j ∈ db.joinRows → j ∈ (applySave k os db).joinRows := by
  induction os with
  | nil => intro db j h; exact h
  | cons o rest ih =>
    intro db j h
    simpa [applySave] using ih (cascadeOwner k o db) j (mem_cascadeOwner_joins k o db j h)

/-- `persistStep` only ever inserts join rows. -/
lemma mem_persistStep_joins (ex : Exec) (k : RelType) (hz : Bool) (s : Association)
    (j : JoinRow) (h : j ∈ s.db.joinRows) : j ∈ (persistStep ex k hz s).db.joinRows := by
  cases hz <;>
    · simp only [persistStep, runCall]
      split
      · exact h
      · simpa [applyCall] using mem_applySave_joins k s.owners.list s.db j h

/-- `saveAssociation` only ever inserts join rows. -/
lemma mem_saveAssociation_joins (ex : Exec) (k : RelType) (clear : Bool)
    (values : List RawVal) (s s1 : Association)
    (hs : saveAssociation ex k clear values s = some s1)
    (j : JoinRow) (h : j ∈ s.db.joinRows) : j ∈ s1.db.joinRows := by
  cases how : s.owners with
  | coll os =>
    simp only [saveAssociation, how] at hs
    split at hs
    · have := Option.some.inj hs
      subst this
      exact mem_persistStep_joins ex k false _ j h
    · cases hl : saveLoop k clear os values
        (if values.length ≠ os.length then some AErr.lengthMismatch else s.err) false with
      | none => rw [hl] at hs; cases hs
      | some trip =>
        obtain ⟨os1, e1, hz⟩ := trip
        rw [hl] at hs
        have := Option.some.inj hs
        subst this
        exact mem_persistStep_joins ex k hz _ j h
  | single o =>
    simp only [saveAssociation, how] at hs
    have := Option.some.inj hs
    subst this
    exact mem_persistStep_joins ex k _ _ j h

/-- `appendToRelations` never changes the owner's primary key. -/
lemma appendToRelations_id (k : RelType) (o : Owner) (rv : RawVal) (c : Bool)
    (e : Option AErr) : (appendToRelations k o rv c e).1.id = o.id := by
  cases k with
  | hasOne | belongsTo =>
    cases rv with
    | structV v => cases v <;> simp [appendToRelations, setSingle]
    | slice vs =>
      cases vs with
      | nil => simp [appendToRelations]
      | cons v vs2 => cases v <;> simp [appendToRelations, setSingle]
  | hasMany | many2many =>
    simp only [appendToRelations]
    split <;> split <;> simp

/-- The per-owner loop preserves the owners' primary keys. -/
lemma saveLoop_ids (k : RelType) (clear : Bool) :
    ∀ (os : List Owner) (vs : List RawVal) (e : Option AErr) (hz : Bool)
      (os1 : List Owner) (e1 : Option AErr) (h1 : Bool),
      saveLoop k clear os vs e hz = some (os1, e1, h1) →
        os1.map (·.id) = os.map (·.id) := by
  intro os
  induction os with
  | nil =>
    intro vs e hz os1 e1 h1 h
    cases vs <;> simp [saveLoop] at h <;> simp [h.1]
  | cons o rest ih =>
    intro vs e hz os1 e1 h1 h
    cases vs with
    | nil => simp [saveLoop] at h
    | cons v vs2 =>
      simp only [saveLoop] at h
      cases hl : saveLoop k clear rest vs2
          (appendToRelations k o v clear e).2 (hz || decide (o.id = 0)) with
      | none => rw [hl] at h; cases h
      | some trip =>
        obtain ⟨os2, e2, h2⟩ := trip
        rw [hl] at h
        have := Option.some.inj h
        injection this with hh tt
        subst hh
        simp [List.map_cons, appendToRelations_id, ih _ _ _ _ _ _ hl]

/-- The struct-owner loop preserves the owner's primary key. -/
lemma saveStructLoop_id (k : RelType) (clear : Bool) :
    ∀ (vs : List RawVal) (idx : Nat) (o : Owner) (e : Option AErr),
      (saveStructLoop k clear vs idx o e).1.id = o.id := by
  intro vs
  induction vs with
  | nil => intro idx o e; simp [saveStructLoop]
  | cons v rest ih =>
    intro idx o e
    simp only [saveStructLoop]
    rw [ih]
    exact appendToRelations_id k o v (clear && idx == 0) e

/-- The BelongsTo fixup preserves the owner's primary key. -/
lemma fixOwnerFk_id (k : RelType) (o : Owner) : (fixOwnerFk k o).id = o.id := by
  cases k <;> simp [fixOwnerFk]

/-- `clearField` preserves the owner's primary key. -/
lemma clearField_id (k : RelType) (o : Owner) : (clearField k o).id = o.id := by
  cases k <;> simp [clearField]

/-- Mapping an id-preserving function over the owner set preserves the
owner key values. -/
lemma ownerIds_mapOwners (f : Owner → Owner) (hf : ∀ o, (f o).id = o.id)
    (ow : OwnerSet) : ownerIds (mapOwners f ow) = ownerIds ow := by
  cases ow with
  | single o => simp [ownerIds, mapOwners, OwnerSet.list, hf]
  | coll os => simp [ownerIds, mapOwners, OwnerSet.list, List.map_map, Function.comp, hf]

/-- `persistStep` preserves the owner key values. -/
lemma persistStep_ownerIds (ex : Exec) (k : RelType) (hz : Bool) (s : Association) :
    ownerIds (persistStep ex k hz s).owners = ownerIds s.owners := by
  cases hz <;>
    · simp only [persistStep, runCall]
      split
      · rfl
      · simpa [applyCall] using ownerIds_mapOwners (fixOwnerFk k) (fixOwnerFk_id k) s.owners

/-- `saveAssociation` preserves the owner key values. -/
lemma saveAssociation_ownerIds (ex : Exec) (k : RelType) (clear : Bool)
    (values : List RawVal) (s s1 : Association)
    (hs : saveAssociation ex k clear values s = some s1) :
    ownerIds s1.owners = ownerIds s.owners := by
  cases how : s.owners with
  | coll os =>
    simp only [saveAssociation, how] at hs
    split at hs
    · have := Option.some.inj hs
      subst this
      rw [persistStep_ownerIds]
      simp [ownerIds, OwnerSet.list, List.map_map, Function.comp, clearField_id, how]
    · cases hl : saveLoop k clear os values
        (if values.length ≠ os.length then some AErr.lengthMismatch else s.err) false with
      | none => rw [hl] at hs; cases hs
      | some trip =>
        obtain ⟨os1, e1, hz⟩ := trip
        rw [hl] at hs
        have := Option.some.inj hs
        subst this
        rw [persistStep_ownerIds]
        simp only [ownerIds, OwnerSet.list, how]
        exact saveLoop_ids k clear os values _ false os1 e1 hz hl
  | single o =>
    simp only [saveAssociation, how] at hs
    have := Option.some.inj hs
    subst this
    rw [persistStep_ownerIds]
    simp only [ownerIds, OwnerSet.list, how, saveStructLoop_id, List.map_cons, List.map_nil]
    split <;> simp [clearField_id]

/-- C4: on a Many2Many `Replace`, only join rows whose owner-side key
matches one of the bound owners and whose related-side key is not among
that same owner's new (post-save) values are deleted; the per-owner
conditions are evaluated independently, and join rows of owners outside
the bound owner set always survive.  The owners' key values are unchanged
by the operation, so the post-state owners are the bound owners. -/
theorem C4_m2m_replace_scoped (values : List RawVal) (s s1 : Association)
    (h0 : s.err = none) (hr : Replace okExec .many2many values s = some s1) :
    ownerIds s1.owners = ownerIds s.owners ∧
    (∀ j ∈ s.db.joinRows, j ∉ s1.db.joinRows →
       ∃ o ∈ s1.owners.list, j.ownerKey = o.id ∧ j.relKey ∉ o.relMany.map (·.id)) ∧
    (∀ j ∈ s.db.joinRows, j.ownerKey ∉ ownerIds s.owners → j ∈ s1.db.joinRows) := by
  simp only [Replace, h0, if_pos] at hr
  cases hsa : saveAssociation okExec .many2many true values s with
  | none => rw [hsa] at hr; cases hr
  | some sA =>
    rw [hsa] at hr
    simp only [runCall, okExec, applyCall] at hr
    have hs1 := Option.some.inj hr
    subst hs1
    have hids := saveAssociation_ownerIds okExec .many2many true values s sA hsa
    have hjoins := mem_saveAssociation_joins okExec .many2many true values s sA hsa
    refine ⟨hids, ?_, ?_⟩
    · intro j hj hnot
      have hjA := hjoins j hj
      by_cases hp : (sA.owners.list.map (fun o => (o.id, o.relMany.map (·.id)))).any
          (fun c => joinMatchB c j) = true
      · obtain ⟨c, hcmem, hcm⟩ := List.any_eq_true.mp hp
        obtain ⟨o, homem, rfl⟩ := List.mem_map.mp hcmem
        refine ⟨o, homem, ?_⟩
        simpa [joinMatchB, Bool.and_eq_true, List.contains, List.elem_eq_mem] using hcm
      · exact absurd (List.mem_filter.mpr ⟨hjA, by simp [hp]⟩) hnot
    · intro j hj hout
      have hjA := hjoins j hj
      refine List.mem_filter.mpr ⟨hjA, ?_⟩
      simp only [Bool.not_eq_eq_eq_not, Bool.not_true, List.any_eq_false]
      intro c hcmem
      obtain ⟨o, homem, rfl⟩ := List.mem_map.mp hcmem
      have hoid : o.id ∈ ownerIds sA.owners := by
        simpa [ownerIds] using List.mem_map_of_mem (·.id) homem
      rw [hids] at hoid
      have hne : j.ownerKey ≠ o.id := fun hc => hout (hc ▸ hoid)
      simp [joinMatchB, hne]

/-- Witness for C4 at a concrete two-owner Many2Many replace: owner 1 gets
`[7]`, owner 2 gets `[6]`; owner 3's join row (and owner 2's row for the
overlapping related key 6) must survive. -/
theorem C4_witness :
    ∃ s1, Replace okExec .many2many
        [RawVal.structV (.rel ⟨7, none⟩), RawVal.structV (.rel ⟨6, none⟩)]
        ⟨.coll [⟨1, none, none, [⟨5, none⟩]⟩, ⟨2, none, none, [⟨5, none⟩]⟩],
         ⟨[⟨5, none⟩, ⟨6, none⟩], [⟨1, 5⟩, ⟨1, 6⟩, ⟨2, 6⟩, ⟨3, 6⟩]⟩, none, []⟩ = some s1 ∧
      ownerIds s1.owners =
        ownerIds (⟨.coll [⟨1, none, none, [⟨5, none⟩]⟩, ⟨2, none, none, [⟨5, none⟩]⟩],
          ⟨[⟨5, none⟩, ⟨6, none⟩], [⟨1, 5⟩, ⟨1, 6⟩, ⟨2, 6⟩, ⟨3, 6⟩]⟩, none, []⟩ :
            Association).owners ∧
      (∀ j ∈ ([⟨1, 5⟩, ⟨1, 6⟩, ⟨2, 6⟩, ⟨3, 6⟩] : List JoinRow), j ∉ s1.db.joinRows →
         ∃ o ∈ s1.owners.list, j.ownerKey = o.id ∧ j.relKey ∉ o.relMany.map (·.id)) ∧
      (∀ j ∈ ([⟨1, 5⟩, ⟨1, 6⟩, ⟨2, 6⟩, ⟨3, 6⟩] : List JoinRow),
         j.ownerKey ∉ ([1, 2] : List Nat) → j ∈ s1.db.joinRows) := by
  have h := C4_m2m_replace_scoped
    [RawVal.structV (.rel ⟨7, none⟩), RawVal.structV (.rel ⟨6, none⟩)]
    ⟨.coll [⟨1, none, none, [⟨5, none⟩]⟩, ⟨2, none, none, [⟨5, none⟩]⟩],
     ⟨[⟨5, none⟩, ⟨6, none⟩], [⟨1, 5⟩, ⟨1, 6⟩, ⟨2, 6⟩, ⟨3, 6⟩]⟩, none, []⟩ _ rfl rfl
  exact ⟨_, rfl, h.1, h.2.1, fun j hj hout => h.2.2 j hj hout⟩

/-- `persistStep` under the succeeding execution layer, in full. -/
lemma persistStep_ok_result (k : RelType) (hz : Bool) (s : Association) :
    persistStep okExec k hz s =
      { s with owners := mapOwners (fixOwnerFk k) s.owners,
               db := applySave k s.owners.list s.db,
               trace := s.trace ++
                 [if hz then PersistCall.save k s.owners.list
                  else PersistCall.saveSelect (selectedColumns k) k s.owners.list] } := by
  cases hz <;> simp [persistStep, runCall, okExec, applyCall]

/-- The cascading save of a cleared owner changes nothing in the database. -/
lemma cascadeOwner_cleared (k : RelType) (o : Owner) (db : DBState) :
    cascadeOwner k (clearField k o) db = db := by
  cases k <;> simp [cascadeOwner, clearField]

/-- The cascading save of a list of cleared owners changes nothing. -/
lemma applySave_cleared (k : RelType) (os : List Owner) :
    ∀ db : DBState, applySave k (os.map (clearField k)) db = db := by
  induction os with
  | nil => intro db; rfl
  | cons o rest ih =>
    intro db
    simp only [List.map_cons, applySave, List.foldl_cons, cascadeOwner_cleared]
    exact ih db

/-- The list of a mapped owner set. -/
lemma mapOwners_list (f : Owner → Owner) (ow : OwnerSet) :
    (mapOwners f ow).list = ow.list.map f := by
  cases ow <;> simp [mapOwners, OwnerSet.list]

/-- Composing owner-set maps. -/
lemma mapOwners_mapOwners (f g : Owner → Owner) (ow : OwnerSet) :
    mapOwners f (mapOwners g ow) = mapOwners (fun o => f (g o)) ow := by
  cases ow <;> simp [mapOwners]

/-- Pointwise-equal functions map owner sets equally. -/
lemma mapOwners_congr (f g : Owner → Owner) (hfg : ∀ o, f o = g o) (ow : OwnerSet) :
    mapOwners f ow = mapOwners g ow := by
  have h : f = g := funext hfg
  rw [h]

/-- `saveAssociation(clear = true)` with no values clears every owner's
relationship field, leaves the database untouched (the cascading save of
an empty field persists nothing), and leaves no error. -/
lemma saveAssociation_clear_empty (k : RelType) (s : Association) (h : s.err = none) :
    ∃ s1, saveAssociation okExec k true [] s = some s1 ∧
      s1.owners = mapOwners (fun o => fixOwnerFk k (clearField k o)) s.owners ∧
      s1.db = s.db ∧ s1.err = none := by
  cases how : s.owners with
  | single o =>
    simp only [saveAssociation, how, List.length_nil, saveStructLoop]
    rw [if_pos (by simp)]
    refine ⟨_, rfl, ?_, ?_, ?_⟩ <;>
      simp [persistStep_ok_result, h, mapOwners, applySave, cascadeOwner_cleared,
        OwnerSet.list]
  | coll os =>
    cases os with
    | nil =>
      simp [saveAssociation, how, saveLoop, persistStep_ok_result, h, mapOwners,
        applySave, OwnerSet.list]
    | cons o2 rest =>
      simp only [saveAssociation, how, List.length_nil]
      rw [if_pos (by simp)]
      refine ⟨_, rfl, ?_, ?_, ?_⟩
      · simp [persistStep_ok_result, mapOwners, OwnerSet.list, List.map_map,
          Function.comp]
      · simp only [persistStep_ok_result, OwnerSet.list]
        exact applySave_cleared k (o2 :: rest) s.db
      · simp [persistStep_ok_result, h]

/-- `any` over a mapped list (heterogeneous version). -/
lemma any_map_general {α β : Type} (l : List α) (f : α → β) (p : β → Bool) :
    (l.map f).any p = l.any (fun a => p (f a)) := by
  induction l with
  | nil => rfl
  | cons a rest ih => simp [List.any_cons, ih]

/-- Membership in the owners' key list, as a fold over the owners. -/
lemma contains_map_id (os : List Owner) (x : Nat) :
    ((os.map (·.id)).contains x) = os.any (fun o => x == o.id) := by
  induction os with
  | nil => rfl
  | cons o rest ih => simp only [List.map_cons, List.contains_cons, List.any_cons, ih]

/-- One `Clear` under the succeeding execution layer: every owner field is
cleared (with the BelongsTo fixup), the database reaches `clearDb`, and no
error is set. -/
lemma clear_run (k : RelType) (s : Association) (h : s.err = none) :
    ∃ s1, Clear okExec k s = some s1 ∧
      s1.owners = mapOwners (fun o => fixOwnerFk k (clearField k o)) s.owners ∧
      s1.db = clearDb k (ownerIds s.owners) s.db ∧ s1.err = none := by
  obtain ⟨sA, hsa, hAo, hAdb, hAerr⟩ := saveAssociation_clear_empty k s h
  have hids : ownerIds sA.owners = ownerIds s.owners := by
    rw [hAo]
    exact ownerIds_mapOwners _ (fun o => by rw [fixOwnerFk_id, clearField_id]) s.owners
  have hmapids : ownerIds (mapOwners (fun o => fixOwnerFk k (clearField k o)) s.owners)
      = ownerIds s.owners := by
    rw [← hAo]; exact hids
  cases k with
  | belongsTo =>
    exact ⟨sA, by simp only [Clear, Replace, h, if_pos, hsa], hAo, hAdb, hAerr⟩
  | hasOne =>
    simp only [Clear, Replace, h, if_pos, hsa]
    refine ⟨_, rfl, ?_, ?_, ?_⟩ <;>
      simp [runCall, okExec, applyCall, hAo, hAdb, hAerr, hids, hmapids, clearDb,
        replaceStaleColumns]
  | hasMany =>
    simp only [Clear, Replace, h, if_pos, hsa]
    refine ⟨_, rfl, ?_, ?_, ?_⟩ <;>
      simp [runCall, okExec, applyCall, hAo, hAdb, hAerr, hids, hmapids, clearDb,
        replaceStaleColumns]
  | many2many =>
    simp only [Clear, Replace, h, if_pos, hsa]
    refine ⟨_, rfl, ?_, ?_, ?_⟩
    · simp [runCall, okExec, applyCall, hAo]
    · simp only [runCall, okExec, applyCall]
      rw [hAdb]
      simp only [clearDb]
      congr 1
      rw [hAo, mapOwners_list, List.map_map]
      apply List.filter_congr
      intro j _
      simp only [ownerIds, any_map_general, contains_map_id, Function.comp]
      congr 1
      congr 1
      funext o
      simp [joinMatchB, fixOwnerFk, clearField]
    · simp [runCall, okExec, applyCall, hAerr]

/-- A cleared (and fixed-up) owner field is a fixpoint of `clearField`. -/
lemma clearField_cleared (k : RelType) (o : Owner) :
    clearField k (fixOwnerFk k (clearField k o)) = fixOwnerFk k (clearField k o) := by
  cases k <;> simp [clearField, fixOwnerFk]

/-- Clearing-and-fixing is idempotent on owners. -/
lemma clearedOwner_idem (k : RelType) (o : Owner) :
    fixOwnerFk k (clearField k (fixOwnerFk k (clearField k o))) =
      fixOwnerFk k (clearField k o) := by
  cases k <;> simp [clearField, fixOwnerFk]

/-- A cleared BelongsTo owner has a NULL foreign key. -/
lemma cleared_ownerFk_belongsTo (o : Owner) :
    (fixOwnerFk .belongsTo (clearField .belongsTo o)).ownerFk = none := by
  simp [fixOwnerFk, clearField]

/-- `clearDb` is idempotent. -/
lemma clearDb_idem (k : RelType) (ids : List Nat) (db : DBState) :
    clearDb k ids (clearDb k ids db) = clearDb k ids db := by
  cases k with
  | hasOne => rfl
  | hasMany => rfl
  | belongsTo => rfl
  | many2many =>
    simp only [clearDb]
    congr 1
    rw [List.filter_filter]
    apply List.filter_congr
    intro j _
    simp

/-- After `clearDb`, the relationship query selects no related rows — for
BelongsTo (the owners' foreign keys are cleared) and Many2Many (the
owners' join rows are deleted).  No such lemma holds for HasOne/HasMany:
there `Clear`'s stale update sets no columns (see `replaceStaleColumns`),
which is exactly the C9 counterexample. -/
lemma assocRows_clearDb (k : RelType)
    (hk : k = RelType.belongsTo ∨ k = RelType.many2many) (ow : OwnerSet) (db : DBState)
    (hfk : k = RelType.belongsTo → ∀ o ∈ ow.list, o.ownerFk = none) :
    assocRows k ow (clearDb k (ownerIds ow) db) = [] := by
  cases k with
  | hasOne => rcases hk with h | h <;> cases h
  | hasMany => rcases hk with h | h <;> cases h
  | belongsTo =>
    simp only [assocRows, clearDb]
    rw [List.filter_eq_nil_iff]
    intro r _
    rw [Bool.not_eq_true, List.any_eq_false]
    intro o ho
    simp [hfk rfl o ho]
  | many2many =>
    simp only [assocRows, clearDb]
    rw [List.filter_eq_nil_iff]
    intro r _
    rw [Bool.not_eq_true, List.any_eq_false]
    intro j hj
    have hmem := List.mem_filter.mp hj
    have hcf : (ownerIds ow).contains j.ownerKey = false := by
      have h2 := hmem.2
      simpa using h2
    simp only [Bool.and_eq_true, beq_iff_eq, not_and]
    intro _
    simpa using hcf

/-- C9 counterexample: at the explicit input — HasMany owner id 1 whose
field holds related row 10 and whose database row 10 has foreign key 1 —
`Clear()` succeeds and empties the in-memory field, yet the relationship
query (and `Find`) still selects row 10: the stale update of src 92-103
lists no columns to set, so the persisted row keeps pointing at the owner
and the related-row count is NOT zero, contradicting the claim. -/
theorem C9_counterexample :
    ∃ s1, Clear okExec .hasMany
        ⟨.single ⟨1, none, none, [⟨10, some 1⟩]⟩, ⟨[⟨10, some 1⟩], []⟩, none, []⟩ = some s1 ∧
      s1.err = none ∧
      (∀ o ∈ s1.owners.list, clearField .hasMany o = o) ∧
      assocRows .hasMany s1.owners s1.db = [⟨10, some 1⟩] ∧
      assocRows .hasMany s1.owners s1.db ≠ [] ∧
      (Find okExec .hasMany s1).2 = [⟨10, some 1⟩] :=
  ⟨_, rfl, rfl, by decide, rfl, by decide, rfl⟩

/-- C9 (amended): `Clear()` is definitionally `Replace()` with zero
values, and under a succeeding persistence layer two consecutive Clears
each leave no error and an empty/zero relationship field, the second call
changes neither the owners nor the database, and the relationship query
selects zero related rows for BelongsTo and Many2Many; for HasOne/HasMany,
however, the stale update sets no columns (src 92-99 populate the update
map only for references not owning the primary key), so Clear leaves the
related table untouched and previously persisted rows still point at the
owners. -/
theorem C9_amended (k : RelType) (s : Association) (h : s.err = none) :
    (∀ (ex : Exec) (k2 : RelType) (s2 : Association), Clear ex k2 s2 = Replace ex k2 [] s2) ∧
    ∃ s1 s2, Clear okExec k s = some s1 ∧ Clear okExec k s1 = some s2 ∧
      s1.err = none ∧ s2.err = none ∧
      (∀ o ∈ s1.owners.list, clearField k o = o) ∧
      (∀ o ∈ s2.owners.list, clearField k o = o) ∧
      ((k = RelType.belongsTo ∨ k = RelType.many2many) →
        assocRows k s1.owners s1.db = [] ∧ assocRows k s2.owners s2.db = []) ∧
      ((k = RelType.hasOne ∨ k = RelType.hasMany) → s1.db = s.db) ∧
      s2.owners = s1.owners ∧ s2.db = s1.db := by
  have hidm : ∀ ow : OwnerSet,
      ownerIds (mapOwners (fun o => fixOwnerFk k (clearField k o)) ow) = ownerIds ow :=
    fun ow => ownerIds_mapOwners _ (fun o => by rw [fixOwnerFk_id, clearField_id]) ow
  have hbfk : ∀ ow : OwnerSet, k = RelType.belongsTo →
      ∀ o ∈ (mapOwners (fun o => fixOwnerFk k (clearField k o)) ow).list, o.ownerFk = none := by
    intro ow hkb o ho
    rw [mapOwners_list] at ho
    obtain ⟨x, _, rfl⟩ := List.mem_map.mp ho
    subst hkb
    exact cleared_ownerFk_belongsTo x
  have hclr : ∀ ow : OwnerSet,
      ∀ o ∈ (mapOwners (fun o => fixOwnerFk k (clearField k o)) ow).list,
        clearField k o = o := by
    intro ow o ho
    rw [mapOwners_list] at ho
    obtain ⟨x, _, rfl⟩ := List.mem_map.mp ho
    exact clearField_cleared k x
  refine ⟨fun ex k2 s2 => rfl, ?_⟩
  obtain ⟨s1, hc1, h1o, h1db, h1err⟩ := clear_run k s h
  obtain ⟨s2, hc2, h2o, h2db, h2err⟩ := clear_run k s1 h1err
  refine ⟨s1, s2, hc1, hc2, h1err, h2err, ?_, ?_, ?_, ?_, ?_, ?_⟩
  · rw [h1o]; exact hclr s.owners
  · rw [h2o]; exact hclr s1.owners
  · intro hk
    constructor
    · rw [h1o, h1db, ← hidm s.owners]
      exact assocRows_clearDb k hk _ s.db (hbfk s.owners)
    · rw [h2o, h2db, ← hidm s1.owners]
      exact assocRows_clearDb k hk _ s1.db (hbfk s1.owners)
  · intro hk
    rw [h1db]
    rcases hk with rfl | rfl <;> rfl
  · rw [h2o, h1o, mapOwners_mapOwners]
    exact mapOwners_congr _ _ (clearedOwner_idem k) s.owners
  · rw [h2db, h1db, h1o, hidm]
    exact clearDb_idem k (ownerIds s.owners) s.db

/-- Witness for C9 (amended) at a concrete Many2Many handle with two join
rows of the owner and one of another owner. -/
theorem C9_witness :
    ∃ s1 s2, Clear okExec .many2many
        ⟨.single ⟨1, none, none, [⟨5, none⟩, ⟨6, none⟩]⟩,
         ⟨[⟨5, none⟩, ⟨6, none⟩], [⟨1, 5⟩, ⟨1, 6⟩, ⟨2, 5⟩]⟩, none, []⟩ = some s1 ∧
      Clear okExec .many2many s1 = some s2 ∧
      s1.err = none ∧ s2.err = none ∧
      (∀ o ∈ s1.owners.list, clearField .many2many o = o) ∧
      (∀ o ∈ s2.owners.list, clearField .many2many o = o) ∧
      ((RelType.many2many = RelType.belongsTo ∨ RelType.many2many = RelType.many2many) →
        assocRows .many2many s1.owners s1.db = [] ∧
        assocRows .many2many s2.owners s2.db = []) ∧
      ((RelType.many2many = RelType.hasOne ∨ RelType.many2many = RelType.hasMany) →
        s1.db = (⟨[⟨5, none⟩, ⟨6, none⟩], [⟨1, 5⟩, ⟨1, 6⟩, ⟨2, 5⟩]⟩ : DBState)) ∧
      s2.owners = s1.owners ∧ s2.db = s1.db :=
  (C9_amended .many2many
    ⟨.single ⟨1, none, none, [⟨5, none⟩, ⟨6, none⟩]⟩,
     ⟨[⟨5, none⟩, ⟨6, none⟩], [⟨1, 5⟩, ⟨1, 6⟩, ⟨2, 5⟩]⟩, none, []⟩ rfl).2

end GormAssoc
